import Mathlib

/-!
Verification development for the Backlog.md cross-branch task state
resolution core.  Definitions are shallow embeddings of the functions in
`src/src/cli.ts`; components that live in modules outside the provided
sources (`src/core/cross-branch-tasks.ts`, `src/core/remote-tasks.ts`) are
modelled from the specification, as marked in their doc comments.
-/

namespace Backlog

/-- Location kind of a task file copy: `backlog/tasks` (active),
`backlog/drafts` (draft) or `backlog/archive` (archived). -/
inductive Kind : Type
  | active
  | draft
  | archived
deriving DecidableEq

/-- Provenance of a record or observation: the local working copy or a
(remote-tracking) branch. -/
inductive TaskSource : Type
  | localSrc
  | remoteSrc
deriving DecidableEq

/-- Executable model of `String.startsWith`: character-list prefix test
(the JavaScript `startsWith` semantics). -/
def strStartsWith (s pre : String) : Bool :=
  pre.toList.isPrefixOf s.toList

/-- Split a character list on a separator character, JavaScript
`String.prototype.split` semantics for a one-character separator. -/
def splitOnChar (sep : Char) : List Char → List (List Char)
  | [] => [[]]
  | c :: rest =>
    let r := splitOnChar sep rest
    if c = sep then [] :: r
    else
      match r with
      | [] => [[c]]
      | h :: t => (c :: h) :: t

/-- Executable model of JavaScript `split` with a one-character separator,
returning strings. -/
def strSplitOn (sep : Char) (s : String) : List String :=
  (splitOnChar sep s.toList).map String.mk

/-- Executable model of JavaScript `String.prototype.trim`: drop leading
and trailing whitespace. -/
def strTrim (s : String) : String :=
  String.mk ((((s.toList.dropWhile Char.isWhitespace).reverse).dropWhile Char.isWhitespace).reverse)

/-- Character class of the regex `[\d.]` used by the filename id pattern in
`generateNextId` (src/src/cli.ts:150). -/
def isIdChar (c : Char) : Bool :=
  c.isDigit || c = '.'

/-- One attempt of the regex `task-([\d.]+)` at the start of `cs`: the
literal `task-` followed by at least one digit-or-dot character; on success
returns the captured run. -/
def matchTaskAt (cs : List Char) : Option (List Char) :=
  if ("task-").toList.isPrefixOf cs then
    let run := (cs.drop 5).takeWhile isIdChar
    if run.isEmpty then none else some run
  else none

/-- First match of `task-([\d.]+)` anywhere in the character list, scanning
left to right as the JS regex engine does. -/
def findTaskMatch : List Char → Option (List Char)
  | [] => none
  | c :: rest =>
    match matchTaskAt (c :: rest) with
    | some run => some run
    | none => findTaskMatch rest

/-- Model of `file.match(/task-([\d.]+)/)` followed by `task-${match[1]}`
in `generateNextId` (src/src/cli.ts:150-152): extract the first task id
embedded in a branch file name, or `none` when the file does not match. -/
def extractTaskId (file : String) : Option String :=
  (findTaskMatch file.toList).map (fun run => ("task-") ++ String.mk run)

/-- Decimal value of a list of digit characters. -/
def digitsToNat (ds : List Char) : Nat :=
  ds.foldl (fun a c => 10 * a + (c.toNat - ('0').toNat)) 0

/-- Model of JavaScript `Number.parseInt(s, 10)` restricted to the
non-negative outcomes that can affect `generateNextId`: parse the maximal
leading digit run; `none` models `NaN` (and negative results, which are
never greater than the running non-negative maximum and hence have the
same effect as `NaN` there). -/
def jsParseLeadingNat (s : String) : Option Nat :=
  let ds := s.toList.takeWhile (fun c => c.isDigit)
  if ds.isEmpty then none else some (digitsToNat ds)

/-- Model of `id.match(/^task-(\d+)/)` plus `parseInt` in the top-level
branch of `generateNextId` (src/src/cli.ts:189-191): the leading integer of
a `task-<n>...` id, `none` when the id does not match the pattern. -/
def topNum (id : String) : Option Nat :=
  if strStartsWith id ("task-") then jsParseLeadingNat (id.drop 5) else none

/-- Model of the per-id body of the parent branch of `generateNextId`
(src/src/cli.ts:171-174 and 178-181): for an id of shape `pre.<rest>`, the
`parseInt` of the first dot-separated component of `<rest>` (with the
`|| "0"` fallback for an empty component); `none` when the id does not
extend `pre.` or the component does not parse. -/
def subNum (pre id : String) : Option Nat :=
  if strStartsWith id (pre ++ ".") then
    let rest := id.drop (pre.length + 1)
    let first := ((strSplitOn ('.') rest).headD (""))
    jsParseLeadingNat (if first = "" then "0" else first)
  else none

/-- The accumulation loop `if (num > max) max = num` of `generateNextId`,
abstracted over the per-id parser `f` (ids whose parse fails leave the
maximum unchanged). -/
def maxBy (f : String → Option Nat) (init : Nat) (ids : List String) : Nat :=
  ids.foldl (fun m id => match f id with | some n => max m n | none => m) init

/-- Maximum of a list of naturals, `0` for the empty list. -/
def listMax (l : List Nat) : Nat :=
  l.foldl max 0

/-- Model of `generateNextId` (src/src/cli.ts:135-203).  The I/O
collaborators are inputs: `taskIds` and `draftIds` are the ids returned by
`core.filesystem.listTasks()` / `listDrafts()`; `gitResult` is
`some branchFiles` (one file list per branch) when `fetch`,
`listAllBranches` and every `listFilesInTree` succeed, and `none` when the
`try` block throws; `debug` models `process.env.DEBUG`.  Returns the
allocated id together with the list of `console.error` warnings emitted. -/
def generateNextId (taskIds draftIds : List String)
    (gitResult : Option (List (List String))) (debug : Bool)
    (parent : Option String) : String × List String :=
  let all := taskIds ++ draftIds
  let allIds : List String :=
    match gitResult with
    | some bss => bss.flatMap (fun fs => fs.filterMap extractTaskId)
    | none => []
  let warnings : List String :=
    match gitResult with
    | some _ => []
    | none => if debug then [("Could not fetch remote task IDs")] else []
  match parent with
  | some p =>
    let pre := if strStartsWith p ("task-") then p else ("task-") ++ p
    (pre ++ (".") ++ toString (maxBy (subNum pre) (maxBy (subNum pre) 0 taskIds) allIds + 1),
      warnings)
  | none =>
    (("task-") ++ toString (maxBy topNum (maxBy topNum 0 all) allIds + 1), warnings)

/-- The task ids visible in the scanned branches: the successful filename
extractions, over all branch file lists (none when the git step failed). -/
def branchVisibleIds (gitResult : Option (List (List String))) : List String :=
  (gitResult.getD []).flatMap (fun fs => fs.filterMap extractTaskId)

/-- Parent id normalisation of `generateNextId` (src/src/cli.ts:168). -/
def normPre (p : String) : String :=
  if strStartsWith p ("task-") then p else ("task-") ++ p

/-- TaskRecord of the data model (spec section 3; the `Task` type of
`src/types/index.ts` as used by `src/src/cli.ts`). -/
structure TaskRec : Type where
  id : String
  title : String
  status : String
  assignee : List String
  labels : List String
  dependencies : List String
  description : String
  createdDate : String
  updatedDate : Option String
  priority : Option String
  parentTaskId : Option String
deriving DecidableEq

/-- TaskWithMetadata (`src/core/remote-tasks.ts`, consumed by the board
pipeline in `src/src/cli.ts`): a task record wrapped with provenance.
`lastModified` models the comparable update time used by conflict
resolution (spec section 4.3: `updatedDate`, or the commit timestamp when
`updatedDate` is absent). -/
structure TaskMeta extends TaskRec : Type where
  src : TaskSource
  branch : Option String
  lastModified : Nat
deriving DecidableEq

/-- Association-list lookup modelling JavaScript `Map.prototype.get`.  -/
def alookup {β : Type} (l : List (String × β)) (k : String) : Option β :=
  match l with
  | [] => none
  | (k', v) :: rest => if k' = k then some v else alookup rest k

/-- Association-list update modelling JavaScript `Map.prototype.set`:
replace in place when the key is present, append otherwise. -/
def aset {β : Type} (l : List (String × β)) (k : String) (v : β) : List (String × β) :=
  match l with
  | [] => [(k, v)]
  | (k', v') :: rest => if k' = k then (k, v) :: rest else (k', v') :: aset rest k v

/-- Model of `normalizeDependencies` (src/src/cli.ts:231-252).  The input
is the list of `--dep`/`--depends-on` occurrences (the string form of the
source is the singleton-list case, on which the two source branches
agree): split each on commas, trim, drop empties, and prefix `task-` when
the prefix is missing. -/
def normalizeDependencies (deps : List String) : List String :=
  ((deps.flatMap (fun dep => (strSplitOn (',') dep).map strTrim)).filter
    (fun d => d ≠ "")).map
    (fun dep => if strStartsWith dep ("task-") then dep else ("task-") ++ dep)

/-- Model of `validateDependencies` (src/src/cli.ts:254-279): partition the
dependency ids into those found among the local task and draft ids and
those not found.  Returns `(valid, invalid)`. -/
def validateDependencies (deps : List String) (taskIds draftIds : List String) :
    List String × List String :=
  if deps = [] then ([], [])
  else
    ((deps.filter (fun d => decide (d ∈ taskIds ++ draftIds))),
      (deps.filter (fun d => decide (d ∉ taskIds ++ draftIds))))

/-- Outcome of the `task create` action: either a task/draft file is
created (carrying the validated dependency list and draft flag), or
creation is aborted because some dependencies do not exist. -/
inductive CreateOutcome : Type
  | created (dependencies : List String) (draft : Bool)
  | depError (invalid : List String)
deriving DecidableEq

/-- Model of the dependency-relevant control flow of the `task create`
action (src/src/cli.ts:345-390): build the dependency list from the
options, validate it against local tasks and drafts, and either abort with
exit code 1 (creating nothing) or create the task/draft, with exit code 0.
Returns the outcome and the process exit code. -/
def taskCreateAction (depsInput : List String) (isDraft : Bool)
    (taskIds draftIds : List String) : CreateOutcome × Nat :=
  let dependencies := normalizeDependencies depsInput
  if dependencies.length > 0 then
    let vi := validateDependencies dependencies taskIds draftIds
    if vi.2.length > 0 then (CreateOutcome.depError vi.2, 1)
    else (CreateOutcome.created vi.1 isDraft, 0)
  else (CreateOutcome.created dependencies isDraft, 0)

/-- One step of the `task list --plain` grouping loop
(src/src/cli.ts:422-428): add a task to the bucket of its status in an
insertion-ordered map (append to the existing bucket, or open a new bucket
at the end). -/
def insertTask (gs : List (String × List TaskRec)) (t : TaskRec) :
    List (String × List TaskRec) :=
  match gs with
  | [] => [(t.status, [t])]
  | (s, l) :: rest =>
    if s = t.status then (s, l ++ [t]) :: rest
    else (s, l) :: insertTask rest t

/-- The grouping map built by the `task list --plain` loop
(src/src/cli.ts:422-428): a `Map<string, Task[]>` keyed by status, keys in
first-encounter order, each bucket in input order. -/
def groupByStatus (ts : List TaskRec) : List (String × List TaskRec) :=
  ts.foldl insertTask []

/-- First-occurrence deduplication of a list, preserving the order in
which elements are first encountered. -/
def firstSeen (l : List String) : List String :=
  l.foldl (fun acc s => if s ∈ acc then acc else acc ++ [s]) []

/-- Model of the `ordered` status sequence of `task list --plain`
(src/src/cli.ts:430-434): the configured statuses that have a group, then
every group key not among the configured statuses. -/
def orderedStatuses (gs : List (String × List TaskRec)) (statuses : List String) :
    List String :=
  statuses.filter (fun s => decide (s ∈ gs.map Prod.fst))
    ++ (gs.map Prod.fst).filter (fun s => decide (s ∉ statuses))

/-- Model of the grouped output of `task list --plain`
(src/src/cli.ts:420-445): for each status of the ordered sequence, the
status with its bucket (statuses whose lookup fails are skipped, as by the
`if (!list) continue`). -/
def listOutput (ts : List TaskRec) (statuses : List String) :
    List (String × List TaskRec) :=
  let gs := groupByStatus ts
  (orderedStatuses gs statuses).filterMap
    (fun s => (alookup gs s).map (fun l => (s, l)))

/-- Modelled from the spec: `filterTasksByLatestState` lives in
`src/core/cross-branch-tasks.ts`, which is not among the provided sources.
Following spec section 4.4 ("Filters out every ResolvedTask whose
ResolvedLocation is not active") and the liveness law of section 8, it
keeps exactly the tasks whose resolved latest location kind is `active`.
`latest` models the `Map` returned by `getLatestTaskStatesForIds`. -/
def filterTasksByLatestState (tasks : List TaskRec) (latest : List (String × Kind)) :
    List TaskRec :=
  tasks.filter (fun t => decide (alookup latest t.id = some Kind.active))

/-- The board assembly pipeline of `handleBoardView`
(src/src/cli.ts:811-874) on resolved data: filter the merged tasks by
their latest cross-branch location and group the survivors by status in
configured order. -/
def assembleBoard (tasks : List TaskRec) (latest : List (String × Kind))
    (statuses : List String) : List (String × List TaskRec) :=
  listOutput (filterTasksByLatestState tasks latest) statuses

/-- Status rank for the `most_progressed` strategy (spec section 4.3):
index in the configured status order, `-1` for an unrecognized status. -/
def statusRank (statuses : List String) (st : String) : Int :=
  match statuses.indexOf? st with
  | some i => (i : Int)
  | none => -1

/-- Modelled from the spec: `resolveTaskConflict` lives in
`src/core/remote-tasks.ts`, which is not among the provided sources.  This
is its both-sides-present core, following spec section 4.3:
`most_progressed` returns the record whose status ranks higher in
`statuses`, falling back on the later update time, with the local record
winning full ties; `most_recent` compares update times only, local wins
ties; any other strategy identifier is a fatal configuration error, never
silently replaced by a default. -/
def resolveConflictBoth (l r : TaskMeta) (statuses : List String)
    (strategy : String) : Except String TaskMeta :=
  if strategy = "most_progressed" then
    let lr := statusRank statuses l.status
    let rr := statusRank statuses r.status
    Except.ok
      (if lr < rr then r
       else if rr < lr then l
       else if l.lastModified < r.lastModified then r else l)
  else if strategy = "most_recent" then
    Except.ok (if l.lastModified < r.lastModified then r else l)
  else Except.error (("Unknown task resolution strategy: ") ++ strategy)

/-- Modelled from the spec: the full `ConflictResolver.resolve` contract of
spec section 4.3, with optional sides — if only one side is present it is
returned unchanged; with both sides present the configured strategy
decides via `resolveConflictBoth`. -/
def resolveTaskConflict (lo re : Option TaskMeta) (statuses : List String)
    (strategy : String) : Except String (Option TaskMeta) :=
  match lo, re with
  | none, none => Except.ok none
  | some t, none => Except.ok (some t)
  | none, some t => Except.ok (some t)
  | some l, some r => (resolveConflictBoth l r statuses strategy).map some

/-- The merge loop of the board pipeline (src/src/cli.ts:827-841): start
from the local tasks keyed by id, then fold the remote tasks in, resolving
conflicts on ids present on both sides. -/
def mergeRemoteTasks (locals remotes : List TaskMeta) (statuses : List String)
    (strategy : String) : Except String (List (String × TaskMeta)) :=
  let init := locals.foldl (fun m t => aset m t.id t) []
  remotes.foldlM
    (fun m rt =>
      match alookup m rt.id with
      | none => Except.ok (aset m rt.id rt)
      | some ex =>
        match resolveConflictBoth ex rt statuses strategy with
        | Except.error e => Except.error e
        | Except.ok res => Except.ok (aset m rt.id res))
    init

/-- LocationObservation of the data model (spec section 3): one sighting
of a task file in one location on one branch, with the last commit
timestamp touching that file (the local working copy carries a synthetic
branch marker, distinguished here by `src`). -/
structure LocationObservation : Type where
  taskId : String
  branch : String
  kind : Kind
  ts : Nat
  src : TaskSource
deriving DecidableEq

/-- Tie-break rank of a location kind (spec section 4.2): `active` over
`draft` over `archived`. -/
def kindRank (k : Kind) : Nat :=
  match k with
  | Kind.active => 2
  | Kind.draft => 1
  | Kind.archived => 0

/-- Tie-break rank of an observation source (spec section 4.2): the
local-origin observation is preferred over any remote one. -/
def srcRank (s : TaskSource) : Nat :=
  match s with
  | TaskSource.localSrc => 1
  | TaskSource.remoteSrc => 0

/-- Total preference key of an observation: timestamp first, then the
documented tie-breaks (kind, then local origin), then the remaining fields
so that the order is total and resolution cannot depend on
iteration/collection order (spec section 4.2). -/
def obsKey (o : LocationObservation) :
    Lex (Nat × Lex (Nat × Lex (Nat × Lex (String × String)))) :=
  toLex (o.ts, toLex (kindRank o.kind, toLex (srcRank o.src, toLex (o.branch, o.taskId))))

/-- The preferred of two observations: the one whose key is larger. -/
def pickObs (a b : LocationObservation) : LocationObservation :=
  if obsKey a ≤ obsKey b then b else a

/-- Combining step of resolution: fold an observation into the current
best-so-far. -/
def stepObs (acc : Option LocationObservation) (o : LocationObservation) :
    Option LocationObservation :=
  some (match acc with | none => o | some b => pickObs b o)

/-- Modelled from the spec: `getLatestTaskStatesForIds` lives in
`src/core/cross-branch-tasks.ts`, which is not among the provided sources.
Following spec section 4.2, resolution for a task id reduces all its
observations to the single most-current one: maximum timestamp, ties
broken by `active` over `draft` over `archived`, then local over remote
(an id with zero observations is simply absent). -/
def getLatestTaskState (obs : List LocationObservation) (tid : String) :
    Option LocationObservation :=
  (obs.filter (fun o => decide (o.taskId = tid))).foldl stepObs none

/-- Convenience constructor for a task record with only id and status. -/
def mkTaskRec (id status : String) : TaskRec :=
  ⟨id, "", status, [], [], [], "", "", none, none, none⟩

/-- Convenience constructor for a task-with-metadata record with only id,
status and update time. -/
def mkTaskMeta (id status : String) (lastModified : Nat) : TaskMeta :=
  ⟨⟨id, "", status, [], [], [], "", "", none, none, none⟩,
    TaskSource.localSrc, none, lastModified⟩

/-- Convenience constructor for a location observation. -/
def mkObs (tid branch : String) (k : Kind) (ts : Nat) (s : TaskSource) :
    LocationObservation :=
  ⟨tid, branch, k, ts, s⟩

section IdAllocationLemmas

lemma foldl_max_eq (l : List Nat) : ∀ i : Nat, l.foldl max i = max i (listMax l) := by
  induction l with
  | nil => intro i; simp [listMax]
  | cons x l ih =>
    intro i
    have hx : listMax (x :: l) = max x (listMax l) := by
      show (x :: l).foldl max 0 = max x (listMax l)
      rw [List.foldl_cons, ih (max 0 x), Nat.zero_max]
    rw [List.foldl_cons, ih (max i x), hx, max_assoc]

lemma maxBy_eq (f : String → Option Nat) (l : List String) :
    ∀ i : Nat, maxBy f i l = max i (listMax (l.filterMap f)) := by
  induction l with
  | nil => intro i; simp [maxBy, listMax]
  | cons x l ih =>
    intro i
    show maxBy f (match f x with | some n => max i n | none => i) l
        = max i (listMax ((x :: l).filterMap f))
    cases hfx : f x with
    | none => rw [ih, List.filterMap_cons_none hfx]
    | some n =>
      rw [ih, List.filterMap_cons_some hfx]
      have hl : listMax (n :: l.filterMap f) = max n (listMax (l.filterMap f)) := by
        show (n :: l.filterMap f).foldl max 0 = _
        rw [List.foldl_cons, foldl_max_eq, Nat.zero_max]
      rw [hl, max_assoc]

lemma listMax_append (a b : List Nat) : listMax (a ++ b) = max (listMax a) (listMax b) := by
  show (a ++ b).foldl max 0 = _
  rw [List.foldl_append, foldl_max_eq]
  rfl

lemma branchVisibleIds_match (g : Option (List (List String))) :
    (match g with
      | some bss => bss.flatMap (fun fs => fs.filterMap extractTaskId)
      | none => ([] : List String)) = branchVisibleIds g := by
  cases g <;> rfl

end IdAllocationLemmas

/-- C2: with no parent, `generateNextId` returns `task-(m+1)` where `m` is
the maximum top-level numeric suffix among all ids visible across local
tasks, local drafts and all scanned branches; in particular, for visible
ids `task-1`, `task-2` (local) and `task-2.1` (on a branch), it returns
`task-3`. -/
theorem c2_top_level_allocation :
    (∀ (taskIds draftIds : List String) (gitResult : Option (List (List String)))
        (debug : Bool),
      (generateNextId taskIds draftIds gitResult debug none).1
        = ("task-") ++ toString
            (listMax (((taskIds ++ draftIds ++ branchVisibleIds gitResult).filterMap topNum)) + 1))
    ∧ (generateNextId ["task-1", "task-2"] []
        (some [["backlog/tasks/task-2.1 - Sub.md"]]) false none).1 = "task-3" := by
  constructor
  · intro taskIds draftIds gitResult debug
    show ("task-") ++ toString
        (maxBy topNum (maxBy topNum 0 (taskIds ++ draftIds))
          (match gitResult with
            | some bss => bss.flatMap (fun fs => fs.filterMap extractTaskId)
            | none => []) + 1) = _
    rw [branchVisibleIds_match, maxBy_eq, maxBy_eq, Nat.zero_max]
    simp [List.filterMap_append, listMax_append, max_assoc]
  · decide

/-- C3 counterexample: with local tasks `task-1`, `task-2`, the local
draft `task-2.1`, no branch ids and parent `task-2`, the code returns
`task-2.1` (colliding with the existing draft), not the `task-2.2` the
claim requires when local drafts are part of the allocation universe. -/
theorem c3_counterexample :
    (generateNextId ["task-1", "task-2"] ["task-2.1"] (some []) false
        (some ("task-2"))).1 = "task-2.1"
    ∧ ("task-2.1" : String) ≠ "task-2.2" := by
  constructor
  · decide
  · decide

/-- C3 amended: with parent `p`, `generateNextId` returns
`pre.(m+1)` where `pre` is the normalised parent id and `m` is the maximum
leading subtask ordinal under `pre` among the ids of the local tasks and
of all scanned branches — local drafts are excluded from the parent
allocation universe (unlike top-level allocation); in particular, for
local task ids `task-1`, `task-2`, `task-2.1` and parent `task-2` it
returns `task-2.2`. -/
theorem c3_subtask_allocation :
    (∀ (taskIds draftIds : List String) (gitResult : Option (List (List String)))
        (debug : Bool) (p : String),
      (generateNextId taskIds draftIds gitResult debug (some p)).1
        = normPre p ++ (".") ++ toString
            (listMax (((taskIds ++ branchVisibleIds gitResult).filterMap (subNum (normPre p)))) + 1))
    ∧ (generateNextId ["task-1", "task-2", "task-2.1"] [] (some []) false
        (some ("task-2"))).1 = "task-2.2" := by
  constructor
  · intro taskIds draftIds gitResult debug p
    show normPre p ++ (".") ++ toString
        (maxBy (subNum (normPre p)) (maxBy (subNum (normPre p)) 0 taskIds)
          (match gitResult with
            | some bss => bss.flatMap (fun fs => fs.filterMap extractTaskId)
            | none => []) + 1) = _
    rw [branchVisibleIds_match, maxBy_eq, maxBy_eq, Nat.zero_max,
      List.filterMap_append, listMax_append]
  · decide

/-- C5 counterexample: when the git step fails (`gitResult = none`) and
`DEBUG` is unset, id allocation completes with the locally computed id but
the warning list is empty — no warning is surfaced to the caller, contrary
to the claim. -/
theorem c5_counterexample :
    generateNextId ["task-1"] [] none false none = ("task-2", []) := by
  decide

/-- C5 amended: when the remote fetch or branch enumeration fails, id
allocation still completes and returns exactly the id computed from the
locally available data (as if zero branches had been scanned); a warning
is surfaced only when the `DEBUG` environment variable is set, and is
silently suppressed otherwise. -/
theorem c5_degraded_allocation :
    ∀ (taskIds draftIds : List String) (debug : Bool) (parent : Option String),
      (generateNextId taskIds draftIds none debug parent).1
          = (generateNextId taskIds draftIds (some []) debug parent).1
      ∧ ((generateNextId taskIds draftIds none debug parent).2 ≠ []
          ↔ debug = true) := by
  intro taskIds draftIds debug parent
  constructor
  · cases parent <;> rfl
  · cases parent <;> cases debug <;> simp [generateNextId]

section DependencyLemmas

lemma invalid_filter_eq_nil (deps ids : List String) :
    deps.filter (fun d => decide (d ∉ ids)) = [] ↔ ∀ x ∈ deps, x ∈ ids := by
  rw [List.filter_eq_nil_iff]
  constructor
  · intro h x hx
    have := h x hx
    simpa using this
  · intro h x hx
    simp [h x hx]

end DependencyLemmas

/-- C10: in `task create`, dependencies are normalized (split on commas,
trimmed, `task-`-prefixed when missing) and the task or draft is created
if and only if every normalized dependency id exists among the local tasks
and drafts; otherwise nothing is created and the process exit code is 1. -/
theorem c10_dependency_validation :
    ∀ (depsInput : List String) (isDraft : Bool) (taskIds draftIds : List String),
      ((∃ v, (taskCreateAction depsInput isDraft taskIds draftIds).1
          = CreateOutcome.created v isDraft)
        ↔ ∀ x ∈ normalizeDependencies depsInput, x ∈ taskIds ++ draftIds)
      ∧ ((taskCreateAction depsInput isDraft taskIds draftIds).2 = 1
        ↔ ¬ ∀ x ∈ normalizeDependencies depsInput, x ∈ taskIds ++ draftIds) := by
  intro depsInput isDraft taskIds draftIds
  by_cases hnil : normalizeDependencies depsInput = []
  · have hall : ∀ x ∈ normalizeDependencies depsInput, x ∈ taskIds ++ draftIds := by
      intro x hx
      rw [hnil] at hx
      cases hx
    have hact : taskCreateAction depsInput isDraft taskIds draftIds
        = (CreateOutcome.created (normalizeDependencies depsInput) isDraft, 0) := by
      unfold taskCreateAction
      rw [if_neg]
      simp [hnil]
    rw [hact]
    exact ⟨iff_of_true ⟨_, rfl⟩ hall, iff_of_false (by simp) (not_not_intro hall)⟩
  · have hlen : (normalizeDependencies depsInput).length > 0 :=
      List.length_pos.mpr hnil
    by_cases hval : (normalizeDependencies depsInput).filter
        (fun d => decide (d ∉ taskIds ++ draftIds)) = []
    · have hall : ∀ x ∈ normalizeDependencies depsInput, x ∈ taskIds ++ draftIds :=
        (invalid_filter_eq_nil _ _).mp hval
      have hact : taskCreateAction depsInput isDraft taskIds draftIds
          = (CreateOutcome.created
              ((normalizeDependencies depsInput).filter
                (fun d => decide (d ∈ taskIds ++ draftIds))) isDraft, 0) := by
        unfold taskCreateAction validateDependencies
        rw [if_pos hlen, if_neg hnil]
        show (if ((normalizeDependencies depsInput).filter
              (fun d => decide (d ∉ taskIds ++ draftIds))).length > 0
            then _ else _) = _
        rw [if_neg]
        rw [hval]
        decide
      rw [hact]
      exact ⟨iff_of_true ⟨_, rfl⟩ hall, iff_of_false (by simp) (not_not_intro hall)⟩
    · have hnall : ¬ ∀ x ∈ normalizeDependencies depsInput, x ∈ taskIds ++ draftIds :=
        fun h => hval ((invalid_filter_eq_nil _ _).mpr h)
      have hvlen : ((normalizeDependencies depsInput).filter
          (fun d => decide (d ∉ taskIds ++ draftIds))).length > 0 :=
        List.length_pos.mpr hval
      have hact : taskCreateAction depsInput isDraft taskIds draftIds
          = (CreateOutcome.depError
              ((normalizeDependencies depsInput).filter
                (fun d => decide (d ∉ taskIds ++ draftIds))), 1) := by
        unfold taskCreateAction validateDependencies
        rw [if_pos hlen, if_neg hnil]
        show (if ((normalizeDependencies depsInput).filter
              (fun d => decide (d ∉ taskIds ++ draftIds))).length > 0
            then _ else _) = _
        rw [if_pos hvlen]
      rw [hact]
      constructor
      · exact iff_of_false (by rintro ⟨v, hv⟩; exact CreateOutcome.noConfusion hv) hnall
      · exact iff_of_true rfl hnall

section GroupingLemmas

lemma insertTask_keys (gs : List (String × List TaskRec)) (t : TaskRec) :
    (insertTask gs t).map Prod.fst
      = if t.status ∈ gs.map Prod.fst then gs.map Prod.fst
        else gs.map Prod.fst ++ [t.status] := by
  induction gs with
  | nil => simp [insertTask]
  | cons p rest ih =>
    obtain ⟨s, l⟩ := p
    by_cases hs : s = t.status
    · simp [insertTask, hs]
    · simp only [insertTask, if_neg hs, List.map_cons, List.mem_cons]
      rw [ih]
      have : ¬ t.status = s := fun h => hs h.symm
      by_cases hmem : t.status ∈ rest.map Prod.fst
      · simp [hmem, this]
      · simp [hmem, this]

lemma insertTask_alookup_self (gs : List (String × List TaskRec)) (t : TaskRec) :
    alookup (insertTask gs t) t.status = some ((alookup gs t.status).getD [] ++ [t]) := by
  induction gs with
  | nil => simp [insertTask, alookup]
  | cons p rest ih =>
    obtain ⟨s, l⟩ := p
    by_cases hs : s = t.status
    · simp [insertTask, hs, alookup]
    · simp [insertTask, hs, alookup, ih]

lemma insertTask_alookup_ne (gs : List (String × List TaskRec)) (t : TaskRec)
    (s : String) (hs : s ≠ t.status) :
    alookup (insertTask gs t) s = alookup gs s := by
  have hts : t.status ≠ s := Ne.symm hs
  induction gs with
  | nil => simp [insertTask, alookup, hts]
  | cons p rest ih =>
    obtain ⟨k, l⟩ := p
    by_cases hk : k = t.status
    · subst hk
      simp [insertTask, alookup, hts]
    · simp [insertTask, alookup, hk, ih]

lemma alookup_isSome_iff {β : Type} (l : List (String × β)) (s : String) :
    (alookup l s).isSome ↔ s ∈ l.map Prod.fst := by
  induction l with
  | nil => simp [alookup]
  | cons p rest ih =>
    obtain ⟨k, v⟩ := p
    by_cases hk : k = s
    · simp [alookup, hk]
    · have hsk : s ≠ k := fun h => hk h.symm
      simp [alookup, hk, ih, hsk]

lemma foldl_insertTask_alookup (ts : List TaskRec) :
    ∀ (acc : List (String × List TaskRec)) (s : String),
      alookup (ts.foldl insertTask acc) s
        = if s ∈ acc.map Prod.fst ∨ s ∈ ts.map TaskRec.status
          then some ((alookup acc s).getD []
            ++ ts.filter (fun t => decide (t.status = s)))
          else none := by
  induction ts with
  | nil =>
    intro acc s
    simp only [List.foldl_nil, List.map_nil, List.not_mem_nil, or_false,
      List.filter_nil, List.append_nil]
    by_cases hmem : s ∈ acc.map Prod.fst
    · rw [if_pos hmem]
      have h1 : (alookup acc s).isSome := (alookup_isSome_iff acc s).mpr hmem
      cases h2 : alookup acc s with
      | none => rw [h2] at h1; cases h1
      | some v => simp
    · rw [if_neg hmem]
      have h1 : ¬ (alookup acc s).isSome := fun h => hmem ((alookup_isSome_iff acc s).mp h)
      cases h2 : alookup acc s with
      | none => rfl
      | some v => rw [h2] at h1; simp at h1
  | cons t ts ih =>
    intro acc s
    rw [List.foldl_cons, ih]
    by_cases hs : s = t.status
    · have hkey : t.status ∈ (insertTask acc t).map Prod.fst := by
        rw [insertTask_keys]
        by_cases hmem : t.status ∈ acc.map Prod.fst
        · rwa [if_pos hmem]
        · rw [if_neg hmem]; simp
      have hcondL : s ∈ (insertTask acc t).map Prod.fst ∨ s ∈ ts.map TaskRec.status :=
        Or.inl (hs ▸ hkey)
      have hcondR : s ∈ acc.map Prod.fst ∨ s ∈ (t :: ts).map TaskRec.status := by
        right; simp [hs]
      rw [if_pos hcondL, if_pos hcondR]
      rw [hs, insertTask_alookup_self]
      have hfil : (t :: ts).filter (fun u => decide (u.status = t.status))
          = t :: ts.filter (fun u => decide (u.status = t.status)) := by
        simp [List.filter_cons]
      rw [hfil]
      simp [List.append_assoc]
    · have hlook : alookup (insertTask acc t) s = alookup acc s :=
        insertTask_alookup_ne acc t s hs
      have hkeys : (s ∈ (insertTask acc t).map Prod.fst) ↔ s ∈ acc.map Prod.fst := by
        rw [insertTask_keys]
        by_cases hmem : t.status ∈ acc.map Prod.fst
        · rw [if_pos hmem]
        · rw [if_neg hmem]
          simp [hs]
      have hmap : (s ∈ (t :: ts).map TaskRec.status) ↔ s ∈ ts.map TaskRec.status := by
        simp [hs]
      have hfil : (t :: ts).filter (fun u => decide (u.status = s))
          = ts.filter (fun u => decide (u.status = s)) := by
        simp [List.filter_cons, Ne.symm hs]
      rw [hlook, hfil]
      by_cases hc : s ∈ acc.map Prod.fst ∨ s ∈ ts.map TaskRec.status
      · rw [if_pos (by rw [hkeys]; tauto), if_pos (by rw [hmap]; tauto)]
      · rw [if_neg (by rw [hkeys]; tauto), if_neg (by rw [hmap]; tauto)]

lemma groupByStatus_alookup (ts : List TaskRec) (s : String) :
    alookup (groupByStatus ts) s
      = if s ∈ ts.map TaskRec.status
        then some (ts.filter (fun t => decide (t.status = s)))
        else none := by
  show alookup (ts.foldl insertTask []) s = _
  rw [foldl_insertTask_alookup]
  simp [alookup]

lemma foldl_insertTask_keys (ts : List TaskRec) :
    ∀ acc : List (String × List TaskRec),
      (ts.foldl insertTask acc).map Prod.fst
        = (ts.map TaskRec.status).foldl
            (fun ks s => if s ∈ ks then ks else ks ++ [s]) (acc.map Prod.fst) := by
  induction ts with
  | nil => intro acc; rfl
  | cons t ts ih =>
    intro acc
    rw [List.foldl_cons, ih, insertTask_keys, List.map_cons, List.foldl_cons]

lemma groupByStatus_keys (ts : List TaskRec) :
    (groupByStatus ts).map Prod.fst = firstSeen (ts.map TaskRec.status) := by
  show (ts.foldl insertTask []).map Prod.fst = _
  rw [foldl_insertTask_keys]
  rfl

lemma mem_foldl_firstSeen (l : List String) :
    ∀ (acc : List String) (a : String),
      a ∈ l.foldl (fun ks s => if s ∈ ks then ks else ks ++ [s]) acc
        ↔ a ∈ acc ∨ a ∈ l := by
  induction l with
  | nil => intro acc a; simp
  | cons x l ih =>
    intro acc a
    rw [List.foldl_cons, ih]
    by_cases hx : x ∈ acc
    · rw [if_pos hx]
      constructor
      · rintro (h | h)
        · exact Or.inl h
        · exact Or.inr (List.mem_cons_of_mem x h)
      · rintro (h | h)
        · exact Or.inl h
        · rcases List.mem_cons.mp h with h | h
          · exact Or.inl (h ▸ hx)
          · exact Or.inr h
    · rw [if_neg hx]
      simp only [List.mem_append, List.mem_singleton, List.mem_cons]
      tauto

lemma mem_firstSeen (l : List String) (a : String) : a ∈ firstSeen l ↔ a ∈ l := by
  show a ∈ l.foldl _ [] ↔ _
  rw [mem_foldl_firstSeen]
  simp

lemma nodup_foldl_firstSeen (l : List String) :
    ∀ acc : List String, acc.Nodup →
      (l.foldl (fun ks s => if s ∈ ks then ks else ks ++ [s]) acc).Nodup := by
  induction l with
  | nil => intro acc h; simpa using h
  | cons x l ih =>
    intro acc h
    rw [List.foldl_cons]
    by_cases hx : x ∈ acc
    · rw [if_pos hx]; exact ih acc h
    · rw [if_neg hx]
      refine ih _ (List.Nodup.append h (List.nodup_singleton x) ?_)
      intro a ha hax
      rw [List.mem_singleton] at hax
      exact hx (hax ▸ ha)

lemma nodup_firstSeen (l : List String) : (firstSeen l).Nodup :=
  nodup_foldl_firstSeen l [] List.nodup_nil

lemma filterMap_eq_map_of_forall {α β : Type} (l : List α) (f : α → Option β)
    (g : α → β) (h : ∀ a ∈ l, f a = some (g a)) : l.filterMap f = l.map g := by
  induction l with
  | nil => rfl
  | cons x l ih =>
    rw [List.filterMap_cons, h x (List.mem_cons_self x l), List.map_cons,
      ih (fun a ha => h a (List.mem_cons_of_mem x ha))]

lemma mem_orderedStatuses_keys (gs : List (String × List TaskRec))
    (statuses : List String) (s : String) (hs : s ∈ orderedStatuses gs statuses) :
    s ∈ gs.map Prod.fst := by
  rcases List.mem_append.mp hs with h | h
  · have := (List.mem_filter.mp h).2
    simpa using this
  · exact (List.mem_filter.mp h).1

lemma keys_mem_orderedStatuses (gs : List (String × List TaskRec))
    (statuses : List String) (s : String) (hs : s ∈ gs.map Prod.fst) :
    s ∈ orderedStatuses gs statuses := by
  unfold orderedStatuses
  rw [List.mem_append]
  by_cases hst : s ∈ statuses
  · left
    exact List.mem_filter.mpr ⟨hst, by simpa using hs⟩
  · right
    exact List.mem_filter.mpr ⟨hs, by simpa using hst⟩

lemma listOutput_eq_map (ts : List TaskRec) (statuses : List String) :
    listOutput ts statuses
      = (orderedStatuses (groupByStatus ts) statuses).map
          (fun s => (s, ts.filter (fun t => decide (t.status = s)))) := by
  show (orderedStatuses (groupByStatus ts) statuses).filterMap _ = _
  apply filterMap_eq_map_of_forall
  intro s hs
  have hkey : s ∈ (groupByStatus ts).map Prod.fst :=
    mem_orderedStatuses_keys _ _ _ hs
  have hmem : s ∈ ts.map TaskRec.status := by
    rw [groupByStatus_keys] at hkey
    exact (mem_firstSeen _ _).mp hkey
  rw [groupByStatus_alookup, if_pos hmem]
  rfl

lemma mem_listOutput (ts : List TaskRec) (statuses : List String) (r : TaskRec) :
    (∃ g ∈ listOutput ts statuses, r ∈ g.2) ↔ r ∈ ts := by
  rw [listOutput_eq_map]
  constructor
  · rintro ⟨g, hg, hr⟩
    rcases List.mem_map.mp hg with ⟨s, _, rfl⟩
    exact (List.mem_filter.mp hr).1
  · intro hr
    refine ⟨(r.status, ts.filter (fun t => decide (t.status = r.status))), ?_, ?_⟩
    · apply List.mem_map_of_mem
      apply keys_mem_orderedStatuses
      rw [groupByStatus_keys, mem_firstSeen]
      exact List.mem_map_of_mem TaskRec.status hr
    · exact List.mem_filter.mpr ⟨hr, by simp⟩

lemma orderedStatuses_nodup (gs : List (String × List TaskRec))
    (statuses : List String) (hst : statuses.Nodup)
    (hkeys : (gs.map Prod.fst).Nodup) : (orderedStatuses gs statuses).Nodup := by
  refine List.Nodup.append (List.Nodup.filter _ hst) (List.Nodup.filter _ hkeys) ?_
  intro a ha hb
  have h1 : a ∈ statuses := (List.mem_filter.mp ha).1
  have h2 := (List.mem_filter.mp hb).2
  simp only [decide_eq_true_eq] at h2
  exact h2 h1

lemma countP_eq_one_of_unique (l : List String) (a : String) (p : String → Bool)
    (hnd : l.Nodup) (hal : a ∈ l) (hp : ∀ x, p x = true ↔ x = a) :
    l.countP p = 1 := by
  induction l with
  | nil => cases hal
  | cons x l ih =>
    rw [List.countP_cons]
    rcases List.nodup_cons.mp hnd with ⟨hxl, hl⟩
    by_cases hx : x = a
    · have hz : l.countP p = 0 := by
        rw [List.countP_eq_zero]
        intro b hb hpb
        exact hxl (((hp b).mp hpb ▸ hx.symm) ▸ hb)
      rw [hz, if_pos ((hp x).mpr hx)]
    · have hpx : ¬ p x = true := fun h => hx ((hp x).mp h)
      rw [if_neg hpx]
      rcases List.mem_cons.mp hal with h | h
      · exact absurd h.symm hx
      · simpa using ih hl h

end GroupingLemmas

/-- C4 counterexample: with the single task `task-1` of status `A` and the
configured status order `["A", "A"]` (a duplicated entry), the grouped
`task list --plain` output emits the `A` group twice, so the task appears
in two output groups, not exactly one as the claim states for every
configured status order. -/
theorem c4_counterexample :
    ¬ ((listOutput [mkTaskRec ("task-1") ("A")] ["A", "A"]).countP
        (fun g => decide (mkTaskRec ("task-1") ("A") ∈ g.2)) = 1) := by
  decide

/-- C4 amended: for every task list and every configured status order
without duplicate entries, the grouped output orders groups by the
configured order first, then appends the remaining status groups in
first-encountered input order, and every input task appears in exactly one
output group (with a duplicated configured status, a group is emitted once
per occurrence and its tasks appear once per occurrence). -/
theorem c4_grouped_listing :
    ∀ (ts : List TaskRec) (statuses : List String), statuses.Nodup →
      ((listOutput ts statuses).map Prod.fst
          = statuses.filter (fun s => decide (s ∈ firstSeen (ts.map TaskRec.status)))
            ++ (firstSeen (ts.map TaskRec.status)).filter (fun s => decide (s ∉ statuses)))
      ∧ ∀ t ∈ ts, (listOutput ts statuses).countP (fun g => decide (t ∈ g.2)) = 1 := by
  intro ts statuses hnd
  constructor
  · rw [listOutput_eq_map, List.map_map]
    have : (Prod.fst ∘ fun s => (s, ts.filter (fun t => decide (t.status = s))))
        = fun s => s := rfl
    rw [this, List.map_id']
    show orderedStatuses (groupByStatus ts) statuses = _
    unfold orderedStatuses
    rw [groupByStatus_keys]
  · intro t ht
    rw [listOutput_eq_map, List.countP_map]
    apply countP_eq_one_of_unique _ t.status
    · exact orderedStatuses_nodup _ _ hnd
        (by rw [groupByStatus_keys]; exact nodup_firstSeen _)
    · apply keys_mem_orderedStatuses
      rw [groupByStatus_keys, mem_firstSeen]
      exact List.mem_map_of_mem TaskRec.status ht
    · intro x
      simp only [Function.comp_apply, decide_eq_true_eq, List.mem_filter]
      constructor
      · rintro ⟨-, h⟩
        exact h.symm
      · rintro rfl
        exact ⟨ht, by simp⟩

/-- C4 witness instance: a concrete nodup status order with one
unconfigured status group. -/
theorem c4_witness :
    (["A", "C"] : List String).Nodup
    ∧ (((listOutput [mkTaskRec ("task-2") ("B"), mkTaskRec ("task-1") ("A")]
          ["A", "C"]).map Prod.fst
        = (["A", "C"] : List String).filter
            (fun s => decide (s ∈ firstSeen
              (([mkTaskRec ("task-2") ("B"), mkTaskRec ("task-1") ("A")]).map TaskRec.status)))
          ++ (firstSeen
              (([mkTaskRec ("task-2") ("B"), mkTaskRec ("task-1") ("A")]).map TaskRec.status)).filter
            (fun s => decide (s ∉ (["A", "C"] : List String))))
      ∧ ∀ t ∈ [mkTaskRec ("task-2") ("B"), mkTaskRec ("task-1") ("A")],
          (listOutput [mkTaskRec ("task-2") ("B"), mkTaskRec ("task-1") ("A")]
            ["A", "C"]).countP (fun g => decide (t ∈ g.2)) = 1) :=
  ⟨by decide, c4_grouped_listing _ _ (by decide)⟩

/-- C1: a task appears in the assembled board output if and only if it is
among the merged tasks and its resolved latest cross-branch location kind
is active; tasks whose latest location is draft or archived (or unknown)
are filtered out. -/
theorem c1_board_liveness :
    ∀ (tasks : List TaskRec) (latest : List (String × Kind)) (statuses : List String)
      (r : TaskRec),
      (∃ g ∈ assembleBoard tasks latest statuses, r ∈ g.2)
        ↔ (r ∈ tasks ∧ alookup latest r.id = some Kind.active) := by
  intro tasks latest statuses r
  show (∃ g ∈ listOutput (filterTasksByLatestState tasks latest) statuses, r ∈ g.2) ↔ _
  rw [mem_listOutput]
  show r ∈ tasks.filter _ ↔ _
  rw [List.mem_filter]
  simp

section ObservationLemmas

lemma kindRank_inj : ∀ k k' : Kind, kindRank k = kindRank k' → k = k' := by
  intro k k' h
  cases k <;> cases k' <;> revert h <;> decide

lemma srcRank_inj : ∀ s s' : TaskSource, srcRank s = srcRank s' → s = s' := by
  intro s s' h
  cases s <;> cases s' <;> revert h <;> decide

lemma obsKey_inj (a b : LocationObservation) (h : obsKey a = obsKey b) : a = b := by
  obtain ⟨ta, ba, ka, tsa, sa⟩ := a
  obtain ⟨tb, bb, kb, tsb, sb⟩ := b
  simp only [obsKey, toLex_inj, Prod.mk.injEq] at h
  obtain ⟨h1, h2, h3, h4, h5⟩ := h
  cases kindRank_inj _ _ h2
  cases srcRank_inj _ _ h3
  subst h1
  subst h4
  subst h5
  rfl

lemma key_pickObs (a b : LocationObservation) :
    obsKey (pickObs a b) = max (obsKey a) (obsKey b) := by
  unfold pickObs
  by_cases h : obsKey a ≤ obsKey b
  · rw [if_pos h, max_eq_right h]
  · rw [if_neg h, max_eq_left (le_of_not_le h)]

lemma pickObs_comm (a b : LocationObservation) : pickObs a b = pickObs b a :=
  obsKey_inj _ _ (by rw [key_pickObs, key_pickObs, max_comm])

lemma pickObs_right_comm (c a b : LocationObservation) :
    pickObs (pickObs c a) b = pickObs (pickObs c b) a :=
  obsKey_inj _ _ (by
    rw [key_pickObs, key_pickObs, key_pickObs, key_pickObs, max_assoc, max_assoc,
      max_comm (obsKey a) (obsKey b)])

lemma stepObs_right_comm (c : Option LocationObservation) (a b : LocationObservation) :
    stepObs (stepObs c a) b = stepObs (stepObs c b) a := by
  cases c with
  | none => simp [stepObs, pickObs_comm a b]
  | some d => simp [stepObs, pickObs_right_comm d a b]

lemma foldl_stepObs_perm {l1 l2 : List LocationObservation} (p : l1.Perm l2) :
    ∀ init : Option LocationObservation, l1.foldl stepObs init = l2.foldl stepObs init := by
  induction p with
  | nil => intro init; rfl
  | cons x _ ih => intro init; rw [List.foldl_cons, List.foldl_cons, ih]
  | swap x y l =>
    intro init
    rw [List.foldl_cons, List.foldl_cons, List.foldl_cons, List.foldl_cons,
      stepObs_right_comm]
  | trans _ _ ih1 ih2 => intro init; rw [ih1, ih2]

end ObservationLemmas

/-- C9: location resolution is deterministic and independent of the order
in which branch scans deliver their observations: permuting the
observation list leaves the resolved location of every task id unchanged
(and resolution depends on nothing beyond the observation set — it is a
pure function of its arguments). -/
theorem c9_deterministic_resolution :
    ∀ (l1 l2 : List LocationObservation), l1.Perm l2 →
      ∀ tid : String, getLatestTaskState l1 tid = getLatestTaskState l2 tid := by
  intro l1 l2 p tid
  exact foldl_stepObs_perm (List.Perm.filter _ p) none

/-- C9 witness instance: swapping two concrete observations does not
change the resolved location. -/
theorem c9_witness :
    ([mkObs ("task-1") ("main") Kind.active 5 TaskSource.localSrc,
        mkObs ("task-1") ("origin/dev") Kind.draft 7 TaskSource.remoteSrc]).Perm
      [mkObs ("task-1") ("origin/dev") Kind.draft 7 TaskSource.remoteSrc,
        mkObs ("task-1") ("main") Kind.active 5 TaskSource.localSrc]
    ∧ getLatestTaskState
        [mkObs ("task-1") ("main") Kind.active 5 TaskSource.localSrc,
          mkObs ("task-1") ("origin/dev") Kind.draft 7 TaskSource.remoteSrc] ("task-1")
      = getLatestTaskState
          [mkObs ("task-1") ("origin/dev") Kind.draft 7 TaskSource.remoteSrc,
            mkObs ("task-1") ("main") Kind.active 5 TaskSource.localSrc] ("task-1") :=
  ⟨List.Perm.swap _ _ _,
    c9_deterministic_resolution _ _ (List.Perm.swap _ _ _) _⟩

/-- C8: on equal maximum timestamps, location resolution prefers the
observation whose kind is active over draft and draft over archived; in
particular with one active and one archived observation of equal
timestamp, the resolved location is the active one. -/
theorem c8_tie_break_active_wins :
    ∀ (o1 o2 : LocationObservation), o1.taskId = o2.taskId → o1.ts = o2.ts →
      ((o1.kind = Kind.active ∧ o2.kind = Kind.draft)
        ∨ (o1.kind = Kind.draft ∧ o2.kind = Kind.archived)
        ∨ (o1.kind = Kind.active ∧ o2.kind = Kind.archived)) →
      getLatestTaskState [o1, o2] o1.taskId = some o1 := by
  intro o1 o2 htid hts hk
  have hkr : kindRank o2.kind < kindRank o1.kind := by
    rcases hk with ⟨h1, h2⟩ | ⟨h1, h2⟩ | ⟨h1, h2⟩ <;> rw [h1, h2] <;> decide
  have inner : toLex (kindRank o2.kind, toLex (srcRank o2.src, toLex (o2.branch, o2.taskId)))
      < toLex (kindRank o1.kind, toLex (srcRank o1.src, toLex (o1.branch, o1.taskId))) := by
    rw [Prod.Lex.lt_iff]
    left
    exact hkr
  have hlt : obsKey o2 < obsKey o1 := by
    show toLex (o2.ts, toLex (kindRank o2.kind, toLex (srcRank o2.src, toLex (o2.branch, o2.taskId))))
        < toLex (o1.ts, toLex (kindRank o1.kind, toLex (srcRank o1.src, toLex (o1.branch, o1.taskId))))
    rw [Prod.Lex.lt_iff]
    right
    exact ⟨hts.symm, inner⟩
  have hpick : pickObs o1 o2 = o1 := by
    unfold pickObs
    rw [if_neg (not_le.mpr hlt)]
  have hfil : [o1, o2].filter (fun o => decide (o.taskId = o1.taskId)) = [o1, o2] := by
    simp [List.filter_cons, htid.symm]
  show ([o1, o2].filter (fun o => decide (o.taskId = o1.taskId))).foldl stepObs none = some o1
  rw [hfil]
  show stepObs (stepObs none o1) o2 = some o1
  simp [stepObs, hpick]

/-- C8 witness instance: one active and one archived observation with the
same timestamp; resolution returns the active one. -/
theorem c8_witness :
    ((mkObs ("task-1") ("main") Kind.active 5 TaskSource.localSrc).taskId
        = (mkObs ("task-1") ("origin/dev") Kind.archived 5 TaskSource.remoteSrc).taskId
      ∧ (mkObs ("task-1") ("main") Kind.active 5 TaskSource.localSrc).ts
        = (mkObs ("task-1") ("origin/dev") Kind.archived 5 TaskSource.remoteSrc).ts
      ∧ (mkObs ("task-1") ("main") Kind.active 5 TaskSource.localSrc).kind = Kind.active
      ∧ (mkObs ("task-1") ("origin/dev") Kind.archived 5 TaskSource.remoteSrc).kind
        = Kind.archived)
    ∧ getLatestTaskState
        [mkObs ("task-1") ("main") Kind.active 5 TaskSource.localSrc,
          mkObs ("task-1") ("origin/dev") Kind.archived 5 TaskSource.remoteSrc] ("task-1")
      = some (mkObs ("task-1") ("main") Kind.active 5 TaskSource.localSrc) :=
  ⟨⟨rfl, rfl, rfl, rfl⟩,
    c8_tie_break_active_wins _ _ rfl rfl (Or.inr (Or.inr ⟨rfl, rfl⟩))⟩

/-- C6: an unrecognized conflict strategy identifier is a fatal
configuration error: the resolver reports it immediately and the merge
pipeline fails with it whenever a conflict must be resolved — it is never
silently replaced by a default strategy. -/
theorem c6_unknown_strategy_error :
    ∀ (statuses : List String) (strategy : String),
      strategy ≠ "most_progressed" → strategy ≠ "most_recent" →
      (∀ l r : TaskMeta, resolveConflictBoth l r statuses strategy
          = Except.error (("Unknown task resolution strategy: ") ++ strategy))
      ∧ (∀ t u : TaskMeta, t.id = u.id →
          mergeRemoteTasks [t] [u] statuses strategy
            = Except.error (("Unknown task resolution strategy: ") ++ strategy)) := by
  intro statuses strategy h1 h2
  have hres : ∀ l r : TaskMeta, resolveConflictBoth l r statuses strategy
      = Except.error (("Unknown task resolution strategy: ") ++ strategy) := by
    intro l r
    unfold resolveConflictBoth
    rw [if_neg h1, if_neg h2]
  refine ⟨hres, ?_⟩
  intro t u htu
  unfold mergeRemoteTasks
  simp [List.foldlM, aset, alookup, htu, hres]

/-- C6 witness instance: the unrecognized strategy `banana` makes both the
resolver and the merge pipeline fail with a configuration error. -/
theorem c6_witness :
    (("banana" : String) ≠ "most_progressed" ∧ ("banana" : String) ≠ "most_recent")
    ∧ (resolveConflictBoth (mkTaskMeta ("task-1") ("To Do") 0)
          (mkTaskMeta ("task-1") ("Done") 5) [] ("banana")
        = Except.error (("Unknown task resolution strategy: ") ++ "banana")
      ∧ mergeRemoteTasks [mkTaskMeta ("task-1") ("To Do") 0]
          [mkTaskMeta ("task-1") ("Done") 5] [] ("banana")
        = Except.error (("Unknown task resolution strategy: ") ++ "banana")) :=
  ⟨⟨by decide, by decide⟩,
    ⟨(c6_unknown_strategy_error [] ("banana") (by decide) (by decide)).1 _ _,
      (c6_unknown_strategy_error [] ("banana") (by decide) (by decide)).2 _ _ rfl⟩⟩

/-- C7: conflict resolution never fabricates a composite record: whenever
it succeeds, the produced record is by value one of the two inputs; and a
record present on only one side is returned unchanged. -/
theorem c7_whole_record_resolution :
    (∀ (lo re : Option TaskMeta) (statuses : List String) (strategy : String)
        (x : TaskMeta),
      resolveTaskConflict lo re statuses strategy = Except.ok (some x) →
      lo = some x ∨ re = some x)
    ∧ (∀ (t : TaskMeta) (statuses : List String) (strategy : String),
        resolveTaskConflict (some t) none statuses strategy = Except.ok (some t)
        ∧ resolveTaskConflict none (some t) statuses strategy = Except.ok (some t)) := by
  constructor
  · intro lo re statuses strategy x h
    match lo, re with
    | none, none => simp [resolveTaskConflict] at h
    | some t, none =>
      simp [resolveTaskConflict] at h
      exact Or.inl (by rw [h])
    | none, some t =>
      simp [resolveTaskConflict] at h
      exact Or.inr (by rw [h])
    | some l, some r =>
      have hdef : resolveTaskConflict (some l) (some r) statuses strategy
          = (resolveConflictBoth l r statuses strategy).map some := rfl
      rw [hdef] at h
      unfold resolveConflictBoth at h
      by_cases h1 : strategy = "most_progressed"
      · rw [if_pos h1] at h
        simp only [Except.map, Except.ok.injEq, Option.some.injEq] at h
        split_ifs at h
        · exact Or.inr (by rw [h])
        · exact Or.inl (by rw [h])
        · exact Or.inr (by rw [h])
        · exact Or.inl (by rw [h])
      · rw [if_neg h1] at h
        by_cases h2 : strategy = "most_recent"
        · rw [if_pos h2] at h
          simp only [Except.map, Except.ok.injEq, Option.some.injEq] at h
          split_ifs at h
          · exact Or.inr (by rw [h])
          · exact Or.inl (by rw [h])
        · rw [if_neg h2] at h
          simp [Except.map] at h
  · intro t statuses strategy
    exact ⟨rfl, rfl⟩

/-- C7 witness instance: a concrete successful resolution whose result is
one of the two inputs. -/
theorem c7_witness :
    resolveTaskConflict (some (mkTaskMeta ("task-1") ("To Do") 0))
        (some (mkTaskMeta ("task-1") ("Done") 5)) [] ("most_recent")
      = Except.ok (some (mkTaskMeta ("task-1") ("Done") 5))
    ∧ ((some (mkTaskMeta ("task-1") ("To Do") 0) : Option TaskMeta)
          = some (mkTaskMeta ("task-1") ("Done") 5)
        ∨ (some (mkTaskMeta ("task-1") ("Done") 5) : Option TaskMeta)
          = some (mkTaskMeta ("task-1") ("Done") 5)) :=
  ⟨rfl,
    c7_whole_record_resolution.1 (some (mkTaskMeta ("task-1") ("To Do") 0))
      (some (mkTaskMeta ("task-1") ("Done") 5)) [] ("most_recent")
      (mkTaskMeta ("task-1") ("Done") 5) rfl⟩

end Backlog
